import Mathlib

/-!
Shallow embedding of the tabular Q-learning agent in `src/HW4/src/q_learning.py`.

Numeric values (Q-table entries, rewards, hyperparameters, uniform real draws)
are modelled as rationals.  `np.mean` of an empty slice yields NaN in numpy;
a NaN-or-number is modelled as `Option ℚ`, with `none` standing for NaN.

The random module `src.random` is modelled as a pair of oracle streams with
consumption counters: `reals k` is the value returned by the (k+1)-th call to
`src.random.uniform(0.0, 1.0)`, and `ints k` the value returned by the
(k+1)-th call to `src.random.randint`.  A call to `randint(0, n)` returns the
next stream value; that the environment of draws is in range (< n) is a
hypothesis of the theorems that need it.

The gymnasium environment is modelled as a deterministic state machine over an
arbitrary internal state type `σ`: `reset` and `step` return the observation
data together with the successor internal state, mirroring the side effects of
`env.reset()` and `env.step(action)`.
-/

namespace RL

/-- Oracle model of the `src.random` module: two draw streams with counters. -/
structure Rand where
  reals : ℕ → ℚ
  ints : ℕ → ℕ
  rIdx : ℕ
  iIdx : ℕ

/-- One call to `src.random.uniform(0.0, 1.0)`: returns the next real draw and
advances the real-draw counter. -/
def drawReal (rnd : Rand) : ℚ × Rand :=
  (rnd.reals rnd.rIdx, { rnd with rIdx := rnd.rIdx + 1 })

/-- One call to `src.random.randint(0, n)`: returns the next integer draw and
advances the integer-draw counter. -/
def drawInt (rnd : Rand) : ℕ × Rand :=
  (rnd.ints rnd.iIdx, { rnd with iIdx := rnd.iIdx + 1 })

/-- A gymnasium environment with discrete observations and actions, as used by
`fit` and `predict`: `reset` returns (initial observation, new internal
state); `step` returns (next observation, reward, terminated, truncated, new
internal state), the tuple shape consumed via `step_dat[0..3]` in `fit`. -/
structure Env (σ : Type) where
  nStates : ℕ
  nActions : ℕ
  reset : σ → ℕ × σ
  step : σ → ℕ → ℕ × ℚ × Bool × Bool × σ

/-- Value of `np.max` on a 1-D array (line 108 / line 134 / line 207).  numpy
raises on an empty array; the `[]` case is junk (never reached under the
non-empty hypotheses used below). -/
def listMax : List ℚ → ℚ
  | [] => 0
  | x :: xs => xs.foldl max x

/-- The row `state_action_values[s]` of a table with `n` columns. -/
def row (Q : ℕ → ℕ → ℚ) (s n : ℕ) : List ℚ :=
  (List.range n).map (Q s)

/-- Value of `np.where(l == np.max(l))[0]`: the increasing list of indices of
`l` holding its maximum (lines 111 and 210). -/
def maxIndices (l : List ℚ) : List ℕ :=
  (List.range l.length).filter (fun i => l.getD i 0 = listMax l)

/-- The tie-break argmax used in `fit`'s exploitation branch (lines 107-113)
and in every `predict` step (lines 206-212): compute the maximal indices,
consume one integer draw `randint(0, len(indices))`, and return
`indices[draw]`. -/
def tieBreakDraw (l : List ℚ) (rnd : Rand) : ℕ × Rand :=
  let dr := drawInt rnd
  ((maxIndices l).getD dr.1 0, dr.2)

/-- Action selection in `fit` (lines 101-113): draw `u = uniform(0.0, 1.0)`;
if `u < epsilon` explore with `randint(0, n_actions)` (the raw draw is the
action), else exploit via the tie-break argmax over the current row. -/
def chooseAction (eps : ℚ) (l : List ℚ) (rnd : Rand) : ℕ × Rand :=
  let ur := drawReal rnd
  if ur.1 < eps then drawInt ur.2 else tieBreakDraw l ur.2

/-- In-place single-entry assignment `Q[s][a] = v`, as a functional update. -/
def updQ (Q : ℕ → ℕ → ℚ) (s a : ℕ) (v : ℚ) : ℕ → ℕ → ℚ :=
  fun s2 a2 => if s2 = s ∧ a2 = a then v else Q s2 a2

/-- The agent's hyperparameters, fixed at construction (`__init__`, defaults
epsilon=0.2, alpha=0.5, gamma=0.5). -/
structure QLearning where
  epsilon : ℚ := 1/5
  alpha : ℚ := 1/2
  gamma : ℚ := 1/2

/-- The mutable state of `fit`'s training loop: the value table, the
`current_state` variable, the environment's internal state, the random-stream
state, and the `all_rewards` list. -/
structure FitState (σ : Type) where
  Q : ℕ → ℕ → ℚ
  cur : ℕ
  env : σ
  rnd : Rand
  rewards : List ℚ

/-- The (action, advanced random state) chosen at the top of a `fit` loop
iteration (lines 101-113). -/
def fitAction {σ : Type} (p : QLearning) (E : Env σ) (st : FitState σ) : ℕ × Rand :=
  chooseAction p.epsilon (row st.Q st.cur E.nActions) st.rnd

/-- One iteration of `fit`'s training loop (lines 99-138): choose an action,
step the environment, on `truncated or terminated` call `env.reset()` (the
placeholder `next_state = 0` otherwise), append the reward, apply the TD(0)
update bootstrapped on the row of `step_dat[0]`, and only then advance
`current_state` to the reset state when the episode ended. -/
def fitStep {σ : Type} (p : QLearning) (E : Env σ) (st : FitState σ) : FitState σ :=
  let ar := fitAction p E st
  let action := ar.1
  let sd := E.step st.env action
  let lastState := st.cur
  let cur1 := sd.1
  let terminated := sd.2.2.1
  let truncated := sd.2.2.2.1
  let env1 := sd.2.2.2.2
  let rr := if truncated || terminated then E.reset env1 else (0, env1)
  let reward := sd.2.1
  let maxNextQ := listMax (row st.Q cur1 E.nActions)
  { Q := updQ st.Q lastState action
      (st.Q lastState action +
        p.alpha * (reward + p.gamma * maxNextQ - st.Q lastState action)),
    cur := if truncated || terminated then rr.1 else cur1,
    env := rr.2,
    rnd := ar.2,
    rewards := st.rewards ++ [reward] }

/-- The state of `fit` just before the training loop (lines 89-95): all-zero
table, empty reward list, and `current_state, _ = env.reset()`. -/
def fitInit {σ : Type} (E : Env σ) (env0 : σ) (rnd0 : Rand) : FitState σ :=
  { Q := fun _ _ => 0,
    cur := (E.reset env0).1,
    env := (E.reset env0).2,
    rnd := rnd0,
    rewards := [] }

/-- The loop state of `fit` after `steps` iterations of the training loop. -/
def fitState {σ : Type} (p : QLearning) (E : Env σ) (env0 : σ) (rnd0 : Rand)
    (steps : ℕ) : FitState σ :=
  (fitStep p E)^[steps] (fitInit E env0 rnd0)

/-- Value of `int(np.ceil(steps / num_bins))` (line 141), written as natural
ceiling division so that it evaluates; `binSize_eq_ceil` below proves it equal
to the ceiling of the exact quotient for `num_bins > 0` (for `num_bins = 0`
line 141 raises `ZeroDivisionError`, modelled in `QLearning.fit`). -/
def binSize (steps nBins : ℕ) : ℕ :=
  (steps + nBins - 1) / nBins

/-- Value of `np.mean` on a 1-D array: `none` models the NaN that numpy
returns on an empty array. -/
def npMean (l : List ℚ) : Option ℚ :=
  if l.isEmpty then none else some (l.sum / (l.length : ℚ))

/-- Python slice `l[a:b]` for `0 ≤ a ≤ b`. -/
def pySlice (l : List ℚ) (a b : ℕ) : List ℚ :=
  (l.drop a).take (b - a)

/-- The reward-binning loop of `fit` (lines 140-145): bin `b` covers
`[b*bin_size, b*bin_size+bin_size)` except the last bin, whose end is
`len(all_rewards)`; the entry is `np.mean` of the slice when
`end_ind > start_ind`, else `0`. -/
def binRewards (allRewards : List ℚ) (steps nBins : ℕ) : List (Option ℚ) :=
  (List.range nBins).map (fun b =>
    let startI := b * binSize steps nBins
    let endI := if b < nBins - 1 then startI + binSize steps nBins else allRewards.length
    if startI < endI then npMean (pySlice allRewards startI endI) else some 0)

/-- The whole of `QLearning.fit`: run the training loop for `steps`
iterations starting from the freshly reset environment, then bin the reward
trace.  `num_bins = 0` makes line 141 raise `ZeroDivisionError` (after all
environment interaction); no other validation exists in the source. -/
def QLearning.fit {σ : Type} (p : QLearning) (E : Env σ) (env0 : σ) (rnd0 : Rand)
    (steps nBins : ℕ) : Except String ((ℕ → ℕ → ℚ) × List (Option ℚ)) :=
  let fs := fitState p E env0 rnd0 steps
  if nBins = 0 then Except.error "ZeroDivisionError"
  else Except.ok (fs.Q, binRewards fs.rewards steps nBins)

/-- The mutable state of `predict`'s episode loop: the (read-only in the
source) value table, `current_state`, environment and random state, the three
output lists, and the `terminated or truncated` flag. -/
structure PredState (σ : Type) where
  table : ℕ → ℕ → ℚ
  cur : ℕ
  env : σ
  rnd : Rand
  states : List ℕ
  actions : List ℕ
  rewards : List ℚ
  done : Bool

/-- The (action, advanced random state) chosen at the top of a `predict` loop
iteration (lines 204-212): always the tie-break argmax, never exploration. -/
def predAction {σ : Type} (E : Env σ) (st : PredState σ) : ℕ × Rand :=
  tieBreakDraw (row st.table st.cur E.nActions) st.rnd

/-- One iteration of `predict`'s `while not (terminated or truncated)` loop
(lines 202-223); once the flag is set the state is frozen (the loop has
exited). -/
def predictStep {σ : Type} (E : Env σ) (st : PredState σ) : PredState σ :=
  if st.done then st
  else
    let ar := predAction E st
    let sd := E.step st.env ar.1
    { table := st.table,
      cur := sd.1,
      env := sd.2.2.2.2,
      rnd := ar.2,
      states := st.states ++ [sd.1],
      actions := st.actions ++ [ar.1],
      rewards := st.rewards ++ [sd.2.1],
      done := sd.2.2.1 || sd.2.2.2.1 }

/-- The state of `predict` just before its loop (lines 193-200). -/
def predInit {σ : Type} (E : Env σ) (tbl : ℕ → ℕ → ℚ) (env0 : σ) (rnd0 : Rand) :
    PredState σ :=
  { table := tbl,
    cur := (E.reset env0).1,
    env := (E.reset env0).2,
    rnd := rnd0,
    states := [],
    actions := [],
    rewards := [],
    done := false }

/-- The loop state of `predict` after `n` loop iterations. -/
def predRun {σ : Type} (E : Env σ) (tbl : ℕ → ℕ → ℚ) (env0 : σ) (rnd0 : Rand)
    (n : ℕ) : PredState σ :=
  (predictStep E)^[n] (predInit E tbl env0 rnd0)

/-- `QLearning.predict`, fuel-bounded: the episode loop run for at most `fuel`
iterations (the source loops until the environment signals the end of the
episode; `fuel` bounds the unbounded `while`). -/
def predict {σ : Type} (E : Env σ) (tbl : ℕ → ℕ → ℚ) (env0 : σ) (rnd0 : Rand)
    (fuel : ℕ) : PredState σ :=
  predRun E tbl env0 rnd0 fuel

/-! ### Concrete fixtures used by witnesses and counterexamples -/

/-- A draw source whose real draws are all `0` and whose integer draws are
all `0`. -/
def zRnd : Rand :=
  { reals := fun _ => 0, ints := fun _ => 0, rIdx := 0, iIdx := 0 }

/-- A draw source whose integer draws are all `1`. -/
def oneRnd : Rand :=
  { reals := fun _ => 0, ints := fun _ => 1, rIdx := 0, iIdx := 0 }

/-- A one-state one-action environment that never ends the episode and always
pays reward `r`. -/
def envConst (r : ℚ) : Env Unit :=
  { nStates := 1, nActions := 1,
    reset := fun _ => (0, ()),
    step := fun _ _ => (0, r, false, false, ()) }

/-- A one-state one-action environment over an interaction counter: each
`reset` increments the internal counter, so the counter counts the
environment interactions performed by `reset`. -/
def envCount : Env ℕ :=
  { nStates := 1, nActions := 1,
    reset := fun n => (0, n + 1),
    step := fun n _ => (0, 0, false, false, n) }

/-- A one-state one-action environment that terminates on every step with
reward `3`. -/
def envTerm : Env Unit :=
  { nStates := 1, nActions := 1,
    reset := fun _ => (0, ()),
    step := fun _ _ => (0, 3, true, false, ()) }

/-- Hyperparameters with `epsilon = 1` (always explore). -/
def pOne : QLearning := { epsilon := 1, alpha := 1, gamma := 1 }

/-- Hyperparameters with `alpha = 1`, `gamma = 0`. -/
def pA : QLearning := { epsilon := 1, alpha := 1, gamma := 0 }

/-! ### Helper lemmas -/

lemma foldl_max_eq_or_mem (xs : List ℚ) (x : ℚ) :
    xs.foldl max x = x ∨ xs.foldl max x ∈ xs := by
  induction xs generalizing x with
  | nil => exact Or.inl rfl
  | cons y ys ih =>
    rcases ih (max x y) with h | h
    · rcases max_choice x y with h2 | h2
      · exact Or.inl (by rw [List.foldl_cons, h, h2])
      · exact Or.inr (by rw [List.foldl_cons, h, h2]; exact List.mem_cons_self _ _)
    · exact Or.inr (List.mem_cons_of_mem _ h)

lemma listMax_mem (l : List ℚ) (h : l ≠ []) : listMax l ∈ l := by
  match l with
  | x :: xs =>
    show xs.foldl max x ∈ x :: xs
    rcases foldl_max_eq_or_mem xs x with h2 | h2
    · rw [h2]; exact List.mem_cons_self _ _
    · exact List.mem_cons_of_mem _ h2

lemma mem_maxIndices (l : List ℚ) (i : ℕ) :
    i ∈ maxIndices l ↔ i < l.length ∧ l.getD i 0 = listMax l := by
  unfold maxIndices
  rw [List.mem_filter, List.mem_range]
  simp only [decide_eq_true_eq]

lemma maxIndices_ne_nil (l : List ℚ) (h : l ≠ []) : maxIndices l ≠ [] := by
  have hm := listMax_mem l h
  obtain ⟨i, hi, hget⟩ := List.mem_iff_getElem.1 hm
  refine List.ne_nil_of_mem (a := i) ?_
  exact (mem_maxIndices l i).2 ⟨hi, by rw [List.getD_eq_getElem _ _ hi, hget]⟩

lemma getD_mem_maxIndices (l : List ℚ) (r : ℕ) (hr : r < (maxIndices l).length) :
    (maxIndices l).getD r 0 ∈ maxIndices l := by
  rw [List.getD_eq_getElem _ _ hr]
  exact List.getElem_mem _

lemma getD_range_map {α : Type} (f : ℕ → α) (n i : ℕ) (d : α) (h : i < n) :
    ((List.range n).map f).getD i d = f i := by
  have hlen : i < ((List.range n).map f).length := by
    rw [List.length_map, List.length_range]; exact h
  rw [List.getD_eq_getElem _ _ hlen, List.getElem_map, List.getElem_range]

lemma binSize_eq_ceil (steps nBins : ℕ) (h : 0 < nBins) :
    (binSize steps nBins : ℤ) = ⌈(steps : ℚ) / (nBins : ℚ)⌉ := by
  have hn : (0 : ℚ) < (nBins : ℚ) := by exact_mod_cast h
  symm
  rw [Int.ceil_eq_iff]
  constructor
  · rw [lt_div_iff₀ hn]
    have h1 : binSize steps nBins * nBins ≤ steps + nBins - 1 :=
      Nat.div_mul_le_self _ _
    have h2 : binSize steps nBins * nBins < steps + nBins := by omega
    have h3 : ((binSize steps nBins : ℚ)) * nBins < (steps : ℚ) + nBins := by
      exact_mod_cast h2
    push_cast
    linarith
  · rw [div_le_iff₀ hn]
    have hb : steps ≤ binSize steps nBins * nBins := by
      by_contra hlt
      push_neg at hlt
      have hmul : (binSize steps nBins + 1) * nBins = binSize steps nBins * nBins + nBins :=
        Nat.succ_mul _ _
      have hle0 : (binSize steps nBins + 1) * nBins ≤ steps + nBins - 1 := by omega
      have hle : binSize steps nBins + 1 ≤ (steps + nBins - 1) / nBins :=
        (Nat.le_div_iff_mul_le h).2 hle0
      have : (steps + nBins - 1) / nBins = binSize steps nBins := rfl
      omega
    push_cast
    exact_mod_cast hb

lemma fitStep_Q {σ : Type} (p : QLearning) (E : Env σ) (st : FitState σ) :
    (fitStep p E st).Q =
      updQ st.Q st.cur (fitAction p E st).1
        (st.Q st.cur (fitAction p E st).1 +
          p.alpha * ((E.step st.env (fitAction p E st).1).2.1 +
            p.gamma * listMax (row st.Q (E.step st.env (fitAction p E st).1).1 E.nActions) -
            st.Q st.cur (fitAction p E st).1)) := rfl

lemma fitStep_rewards {σ : Type} (p : QLearning) (E : Env σ) (st : FitState σ) :
    (fitStep p E st).rewards = st.rewards ++ [(E.step st.env (fitAction p E st).1).2.1] := rfl

lemma fitStep_cur {σ : Type} (p : QLearning) (E : Env σ) (st : FitState σ) :
    (fitStep p E st).cur =
      (if ((E.step st.env (fitAction p E st).1).2.2.2.1 ||
            (E.step st.env (fitAction p E st).1).2.2.1) = true
        then (E.reset (E.step st.env (fitAction p E st).1).2.2.2.2).1
        else (E.step st.env (fitAction p E st).1).1) := by
  show (if ((E.step st.env (fitAction p E st).1).2.2.2.1 ||
            (E.step st.env (fitAction p E st).1).2.2.1) = true
        then (if ((E.step st.env (fitAction p E st).1).2.2.2.1 ||
            (E.step st.env (fitAction p E st).1).2.2.1) = true
          then E.reset (E.step st.env (fitAction p E st).1).2.2.2.2
          else (0, (E.step st.env (fitAction p E st).1).2.2.2.2)).1
        else (E.step st.env (fitAction p E st).1).1) = _
  cases hc : ((E.step st.env (fitAction p E st).1).2.2.2.1 ||
      (E.step st.env (fitAction p E st).1).2.2.1) <;> simp [hc]

lemma fitState_zero {σ : Type} (p : QLearning) (E : Env σ) (env0 : σ) (rnd0 : Rand) :
    fitState p E env0 rnd0 0 = fitInit E env0 rnd0 := rfl

lemma fitState_succ {σ : Type} (p : QLearning) (E : Env σ) (env0 : σ) (rnd0 : Rand) (n : ℕ) :
    fitState p E env0 rnd0 (n + 1) = fitStep p E (fitState p E env0 rnd0 n) :=
  Function.iterate_succ_apply' _ _ _

lemma fitState_rewards_length {σ : Type} (p : QLearning) (E : Env σ) (env0 : σ)
    (rnd0 : Rand) (n : ℕ) : (fitState p E env0 rnd0 n).rewards.length = n := by
  induction n with
  | zero => rfl
  | succ k ih =>
    rw [fitState_succ, fitStep_rewards, List.length_append, ih]
    rfl

lemma chooseAction_streams (eps : ℚ) (l : List ℚ) (rnd : Rand) :
    (chooseAction eps l rnd).2.reals = rnd.reals ∧
      (chooseAction eps l rnd).2.ints = rnd.ints := by
  unfold chooseAction drawReal drawInt tieBreakDraw
  dsimp only
  split <;> exact ⟨rfl, rfl⟩

lemma fitState_streams {σ : Type} (p : QLearning) (E : Env σ) (env0 : σ)
    (rnd0 : Rand) (n : ℕ) :
    (fitState p E env0 rnd0 n).rnd.reals = rnd0.reals ∧
      (fitState p E env0 rnd0 n).rnd.ints = rnd0.ints := by
  induction n with
  | zero => exact ⟨rfl, rfl⟩
  | succ k ih =>
    rw [fitState_succ]
    have h := chooseAction_streams p.epsilon
      (row (fitState p E env0 rnd0 k).Q (fitState p E env0 rnd0 k).cur E.nActions)
      (fitState p E env0 rnd0 k).rnd
    exact ⟨h.1.trans ih.1, h.2.trans ih.2⟩

lemma chooseAction_explore (eps : ℚ) (l : List ℚ) (rnd : Rand)
    (h : rnd.reals rnd.rIdx < eps) :
    chooseAction eps l rnd =
      (rnd.ints rnd.iIdx,
        { reals := rnd.reals, ints := rnd.ints,
          rIdx := rnd.rIdx + 1, iIdx := rnd.iIdx + 1 }) := by
  unfold chooseAction drawReal drawInt
  rw [if_pos h]

lemma predictStep_table {σ : Type} (E : Env σ) (st : PredState σ) :
    (predictStep E st).table = st.table := by
  unfold predictStep
  split <;> rfl

lemma predRun_zero {σ : Type} (E : Env σ) (tbl : ℕ → ℕ → ℚ) (env0 : σ) (rnd0 : Rand) :
    predRun E tbl env0 rnd0 0 = predInit E tbl env0 rnd0 := rfl

lemma predRun_succ {σ : Type} (E : Env σ) (tbl : ℕ → ℕ → ℚ) (env0 : σ) (rnd0 : Rand)
    (n : ℕ) : predRun E tbl env0 rnd0 (n + 1) = predictStep E (predRun E tbl env0 rnd0 n) :=
  Function.iterate_succ_apply' _ _ _

lemma predictStep_of_done {σ : Type} (E : Env σ) (st : PredState σ)
    (h : st.done = true) : predictStep E st = st := by
  unfold predictStep
  rw [if_pos h]

lemma predictStep_of_not_done {σ : Type} (E : Env σ) (st : PredState σ)
    (h : st.done = false) :
    (predictStep E st).states = st.states ++ [(E.step st.env (predAction E st).1).1] ∧
    (predictStep E st).actions = st.actions ++ [(predAction E st).1] ∧
    (predictStep E st).rewards = st.rewards ++ [(E.step st.env (predAction E st).1).2.1] ∧
    (predictStep E st).done =
      ((E.step st.env (predAction E st).1).2.2.1 ||
        (E.step st.env (predAction E st).1).2.2.2.1) := by
  unfold predictStep
  rw [if_neg (by simp [h])]
  exact ⟨rfl, rfl, rfl, rfl⟩

/-! ### Claim theorems -/

/-- C1: every training step of `fit` updates the table by exactly the
one-step TD(0) control rule
`Q[s,a] += alpha * (reward + gamma * max Q[s_next,:] - Q[s,a])`, where `s` is
the pre-step state and `s_next` is the state reported by `env.step` — even on
a terminated or truncated step the bootstrap max is over the reported next
state's row, not the reset state's row — and the reset state becomes the
current state only after the update. -/
theorem fit_td_update {σ : Type} (p : QLearning) (E : Env σ) (env0 : σ)
    (rnd0 : Rand) (n : ℕ) :
    fitState p E env0 rnd0 (n + 1) = fitStep p E (fitState p E env0 rnd0 n) ∧
    (∀ st : FitState σ,
      (fitStep p E st).Q =
        updQ st.Q st.cur (fitAction p E st).1
          (st.Q st.cur (fitAction p E st).1 +
            p.alpha * ((E.step st.env (fitAction p E st).1).2.1 +
              p.gamma * listMax (row st.Q (E.step st.env (fitAction p E st).1).1 E.nActions) -
              st.Q st.cur (fitAction p E st).1))) ∧
    (∀ st : FitState σ,
      (fitStep p E st).cur =
        (if ((E.step st.env (fitAction p E st).1).2.2.2.1 ||
              (E.step st.env (fitAction p E st).1).2.2.1) = true
          then (E.reset (E.step st.env (fitAction p E st).1).2.2.2.2).1
          else (E.step st.env (fitAction p E st).1).1)) :=
  ⟨fitState_succ p E env0 rnd0 n, fitStep_Q p E, fitStep_cur p E⟩

/-- C2: on a non-empty value row, the tie-break argmax consumes exactly one
integer draw, taken over the count of maximal indices, and returns the
draw-th member of the increasing list of maximal indices: an index in
`[0, A)` whose value equals the row maximum.  Every tied maximal index is
returned under some draw, so the result is not deterministically the lowest
tied index. -/
theorem tieBreak_argmax_spec (l : List ℚ) (rnd : Rand) (hl : l ≠ [])
    (hr : rnd.ints rnd.iIdx < (maxIndices l).length) :
    (tieBreakDraw l rnd).1 < l.length ∧
    l.getD (tieBreakDraw l rnd).1 0 = listMax l ∧
    (tieBreakDraw l rnd).1 = (maxIndices l).getD (rnd.ints rnd.iIdx) 0 ∧
    (tieBreakDraw l rnd).2.iIdx = rnd.iIdx + 1 ∧
    (tieBreakDraw l rnd).2.rIdx = rnd.rIdx ∧
    (tieBreakDraw l rnd).2.reals = rnd.reals ∧
    (tieBreakDraw l rnd).2.ints = rnd.ints ∧
    (∀ j, j < (maxIndices l).length →
      (tieBreakDraw l
        { reals := rnd.reals, ints := fun _ => j,
          rIdx := rnd.rIdx, iIdx := rnd.iIdx }).1 = (maxIndices l).getD j 0) := by
  have hm := getD_mem_maxIndices l (rnd.ints rnd.iIdx) hr
  have hspec := (mem_maxIndices l _).1 hm
  exact ⟨hspec.1, hspec.2, rfl, rfl, rfl, rfl, rfl, fun j _ => rfl⟩

/-- Witness for C2 on the row `[1, 3, 3]` with an integer draw of `1`: the
hypotheses hold and the returned action is index `2`, the second of the two
tied maximal indices. -/
theorem tieBreak_argmax_spec_witness :
    ([(1 : ℚ), 3, 3] ≠ ([] : List ℚ)) ∧
    oneRnd.ints oneRnd.iIdx < (maxIndices [(1 : ℚ), 3, 3]).length ∧
    (tieBreakDraw [(1 : ℚ), 3, 3] oneRnd).1 < ([(1 : ℚ), 3, 3] : List ℚ).length ∧
    List.getD [(1 : ℚ), 3, 3] (tieBreakDraw [(1 : ℚ), 3, 3] oneRnd).1 0 =
      listMax [(1 : ℚ), 3, 3] := by
  have h := tieBreak_argmax_spec [(1 : ℚ), 3, 3] oneRnd (by decide) (by decide)
  exact ⟨by decide, by decide, h.1, h.2.1⟩

/-- C6: `predict` never mutates the value table it is given: the table
carried through any number of loop iterations equals the input table. -/
theorem predict_no_table_mutation {σ : Type} (E : Env σ) (tbl : ℕ → ℕ → ℚ)
    (env0 : σ) (rnd0 : Rand) (fuel : ℕ) :
    (predict E tbl env0 rnd0 fuel).table = tbl := by
  induction fuel with
  | zero => rfl
  | succ k ih =>
    show (predRun E tbl env0 rnd0 (k + 1)).table = tbl
    rw [predRun_succ, predictStep_table]
    exact ih

/-- C9: if a training step receives reward `0` while `gamma = 0` and
`alpha = 1`, the TD update sets the entry `Q[s, a]` of the pre-step state and
chosen action to exactly `0`, whatever its previous value. -/
theorem fit_td_zero {σ : Type} (p : QLearning) (E : Env σ) (st : FitState σ)
    (ha : p.alpha = 1) (hg : p.gamma = 0)
    (hr : (E.step st.env (fitAction p E st).1).2.1 = 0) :
    (fitStep p E st).Q st.cur (fitAction p E st).1 = 0 := by
  rw [fitStep_Q]
  unfold updQ
  rw [if_pos ⟨rfl, rfl⟩, ha, hg, hr]
  ring

/-- Witness for C9: a concrete zero-reward step with `alpha = 1`, `gamma = 0`
leaves the updated entry at exactly `0`. -/
theorem fit_td_zero_witness :
    pA.alpha = 1 ∧ pA.gamma = 0 ∧
    (fitStep pA (envConst 0) (fitInit (envConst 0) () zRnd)).Q
      (fitInit (envConst 0) () zRnd).cur
      (fitAction pA (envConst 0) (fitInit (envConst 0) () zRnd)).1 = 0 :=
  ⟨rfl, rfl, fit_td_zero pA (envConst 0) (fitInit (envConst 0) () zRnd) rfl rfl rfl⟩

/-- C10: a training step writes at most the single entry indexed by the
pre-step state and the chosen action — every other entry is unchanged — and
any (state, action) pair that is never (pre-step state, chosen action) of a
step still holds its initial value `0` after the whole run. -/
theorem fit_frame {σ : Type} (p : QLearning) (E : Env σ) (env0 : σ) (rnd0 : Rand) :
    (∀ (st : FitState σ) (s a : ℕ), ¬(s = st.cur ∧ a = (fitAction p E st).1) →
      (fitStep p E st).Q s a = st.Q s a) ∧
    (∀ (steps s a : ℕ),
      (∀ n, n < steps →
        ¬(s = (fitState p E env0 rnd0 n).cur ∧
          a = (fitAction p E (fitState p E env0 rnd0 n)).1)) →
      (fitState p E env0 rnd0 steps).Q s a = 0) := by
  have hframe : ∀ (st : FitState σ) (s a : ℕ),
      ¬(s = st.cur ∧ a = (fitAction p E st).1) →
      (fitStep p E st).Q s a = st.Q s a := by
    intro st s a h
    rw [fitStep_Q]
    unfold updQ
    rw [if_neg h]
  refine ⟨hframe, ?_⟩
  intro steps s a h
  induction steps with
  | zero => rfl
  | succ k ih =>
    rw [fitState_succ, hframe _ _ _ (h k (Nat.lt_succ_self k))]
    exact ih fun n hn => h n (Nat.lt_succ_of_lt hn)

/-- Witness for C10: over one concrete training step from state `0` with
action `0`, the entry `(5, 7)` is untouched and remains `0`. -/
theorem fit_frame_witness :
    (∀ n, n < 1 →
      ¬(5 = (fitState pOne (envConst 0) () zRnd n).cur ∧
        7 = (fitAction pOne (envConst 0) (fitState pOne (envConst 0) () zRnd n)).1)) ∧
    (fitState pOne (envConst 0) () zRnd 1).Q 5 7 = 0 := by
  have h := (fit_frame pOne (envConst 0) () zRnd).2 1 5 7 (by decide)
  exact ⟨by decide, h⟩

/-- C7: with `epsilon = 1` and every uniform real draw in `[0, 1)` (hence
`u < epsilon`), every action chosen during `fit` is the raw uniform integer
draw; the exploitation (tie-break) logic never executes — the selection is
independent of the value row — exactly one integer draw is consumed, and the
action lies in `[0, A)` whenever the draws do. -/
theorem fit_eps_one_explore {σ : Type} (p : QLearning) (E : Env σ) (env0 : σ)
    (rnd0 : Rand) (heps : p.epsilon = 1) (hu : ∀ k, rnd0.reals k < 1) (n : ℕ) :
    (fitAction p E (fitState p E env0 rnd0 n)).1 =
      rnd0.ints (fitState p E env0 rnd0 n).rnd.iIdx ∧
    (∀ l l2 : List ℚ,
      chooseAction p.epsilon l (fitState p E env0 rnd0 n).rnd =
        chooseAction p.epsilon l2 (fitState p E env0 rnd0 n).rnd) ∧
    (fitAction p E (fitState p E env0 rnd0 n)).2.iIdx =
      (fitState p E env0 rnd0 n).rnd.iIdx + 1 ∧
    ((∀ k, rnd0.ints k < E.nActions) →
      (fitAction p E (fitState p E env0 rnd0 n)).1 < E.nActions) := by
  have hs := fitState_streams p E env0 rnd0 n
  have hlt : (fitState p E env0 rnd0 n).rnd.reals (fitState p E env0 rnd0 n).rnd.rIdx <
      p.epsilon := by
    rw [hs.1, heps]; exact hu _
  have hch := fun l => chooseAction_explore p.epsilon l (fitState p E env0 rnd0 n).rnd hlt
  have h1 : (fitAction p E (fitState p E env0 rnd0 n)).1 =
      rnd0.ints (fitState p E env0 rnd0 n).rnd.iIdx := by
    show (chooseAction p.epsilon _ _).1 = _
    rw [hch, ← hs.2]
  refine ⟨h1, fun l l2 => (hch l).trans (hch l2).symm, ?_, fun hint => ?_⟩
  · show (chooseAction p.epsilon _ _).2.iIdx = _
    rw [hch]
  · rw [h1]; exact hint _

/-- Witness for C7: a concrete two-step run with `epsilon = 1` in which the
chosen action is the raw integer draw and lies in `[0, A)`. -/
theorem fit_eps_one_explore_witness :
    pOne.epsilon = 1 ∧
    (fitAction pOne (envConst 0) (fitState pOne (envConst 0) () zRnd 2)).1 =
      zRnd.ints (fitState pOne (envConst 0) () zRnd 2).rnd.iIdx ∧
    (fitAction pOne (envConst 0) (fitState pOne (envConst 0) () zRnd 2)).1 <
      (envConst 0).nActions := by
  have h := fit_eps_one_explore pOne (envConst 0) () zRnd rfl
    (fun _ => by norm_num [zRnd]) 2
  exact ⟨rfl, h.1, h.2.2.2 (fun _ => by norm_num [zRnd, envConst])⟩

/-- C8: `predict` builds three sequences of equal length, appending per
executed step exactly one post-step state, the chosen action and the received
reward; the start state is never appended (the lists start empty), and once
the environment signals `terminated or truncated` the run is frozen, so the
common length is the number of steps until the episode ends. -/
theorem predict_trajectory {σ : Type} (E : Env σ) (tbl : ℕ → ℕ → ℚ) (env0 : σ)
    (rnd0 : Rand) :
    (predRun E tbl env0 rnd0 0).states = [] ∧
    (predRun E tbl env0 rnd0 0).actions = [] ∧
    (predRun E tbl env0 rnd0 0).rewards = [] ∧
    (∀ n, (predRun E tbl env0 rnd0 n).states.length =
        (predRun E tbl env0 rnd0 n).actions.length ∧
      (predRun E tbl env0 rnd0 n).rewards.length =
        (predRun E tbl env0 rnd0 n).actions.length) ∧
    (∀ n, (predRun E tbl env0 rnd0 n).done = true →
      predRun E tbl env0 rnd0 (n + 1) = predRun E tbl env0 rnd0 n) ∧
    (∀ n, (predRun E tbl env0 rnd0 n).done = false →
      (predRun E tbl env0 rnd0 (n + 1)).states =
        (predRun E tbl env0 rnd0 n).states ++
          [(E.step (predRun E tbl env0 rnd0 n).env
            (predAction E (predRun E tbl env0 rnd0 n)).1).1] ∧
      (predRun E tbl env0 rnd0 (n + 1)).actions =
        (predRun E tbl env0 rnd0 n).actions ++
          [(predAction E (predRun E tbl env0 rnd0 n)).1] ∧
      (predRun E tbl env0 rnd0 (n + 1)).rewards =
        (predRun E tbl env0 rnd0 n).rewards ++
          [(E.step (predRun E tbl env0 rnd0 n).env
            (predAction E (predRun E tbl env0 rnd0 n)).1).2.1]) := by
  refine ⟨rfl, rfl, rfl, ?_, ?_, ?_⟩
  · intro n
    induction n with
    | zero => exact ⟨rfl, rfl⟩
    | succ k ih =>
      rw [predRun_succ]
      cases hd : (predRun E tbl env0 rnd0 k).done
      · have h := predictStep_of_not_done E _ hd
        rw [h.1, h.2.1, h.2.2.1]
        simp only [List.length_append, List.length_cons, List.length_nil]
        omega
      · rw [predictStep_of_done E _ hd]
        exact ih
  · intro n hd
    rw [predRun_succ, predictStep_of_done E _ hd]
  · intro n hd
    rw [predRun_succ]
    have h := predictStep_of_not_done E _ hd
    exact ⟨h.1, h.2.1, h.2.2.1⟩

/-- Witness for C8: on a concrete immediately-terminating environment, the
first loop iteration appends the chosen action and keeps the states and
actions lists at equal length. -/
theorem predict_trajectory_witness :
    (predRun envTerm (fun _ _ => 0) () zRnd 0).done = false ∧
    (predRun envTerm (fun _ _ => 0) () zRnd 1).actions =
      (predRun envTerm (fun _ _ => 0) () zRnd 0).actions ++
        [(predAction envTerm (predRun envTerm (fun _ _ => 0) () zRnd 0)).1] ∧
    (predRun envTerm (fun _ _ => 0) () zRnd 1).states.length =
      (predRun envTerm (fun _ _ => 0) () zRnd 1).actions.length := by
  have h := predict_trajectory envTerm (fun _ _ => 0) () zRnd
  exact ⟨rfl, (h.2.2.2.2.2 0 rfl).2.1, (h.2.2.2.1 1).1⟩

/-! ### Binning lemmas -/

lemma binRewards_length (tr : List ℚ) (steps nb : ℕ) :
    (binRewards tr steps nb).length = nb := by
  unfold binRewards
  rw [List.length_map, List.length_range]

lemma binRewards_getD (tr : List ℚ) (steps nb i : ℕ) (h : i < nb) :
    (binRewards tr steps nb).getD i none =
      (if i * binSize steps nb <
          (if i < nb - 1 then i * binSize steps nb + binSize steps nb else tr.length)
        then npMean (pySlice tr (i * binSize steps nb)
          (if i < nb - 1 then i * binSize steps nb + binSize steps nb else tr.length))
        else some 0) := by
  unfold binRewards
  rw [getD_range_map _ nb i none h]

lemma fit_ok {σ : Type} (p : QLearning) (E : Env σ) (env0 : σ) (rnd0 : Rand)
    (steps nb : ℕ) (hb : nb ≠ 0) :
    p.fit E env0 rnd0 steps nb =
      Except.ok ((fitState p E env0 rnd0 steps).Q,
        binRewards (fitState p E env0 rnd0 steps).rewards steps nb) := by
  unfold QLearning.fit
  rw [if_neg hb]

lemma binRewards_nonfinal (tr : List ℚ) (steps nb i : ℕ) (hi : i < nb - 1)
    (hne : pySlice tr (i * binSize steps nb) ((i + 1) * binSize steps nb) ≠ []) :
    (binRewards tr steps nb).getD i none =
      some ((pySlice tr (i * binSize steps nb) ((i + 1) * binSize steps nb)).sum /
        ((pySlice tr (i * binSize steps nb) ((i + 1) * binSize steps nb)).length : ℚ)) := by
  have h : i < nb := Nat.lt_of_lt_of_le hi (Nat.sub_le nb 1)
  have hsm : (i + 1) * binSize steps nb = i * binSize steps nb + binSize steps nb :=
    Nat.succ_mul _ _
  have hbs : 0 < binSize steps nb := by
    by_contra h0
    push_neg at h0
    have hz : binSize steps nb = 0 := Nat.le_zero.1 h0
    apply hne
    unfold pySlice
    rw [hsm, hz]
    simp
  rw [binRewards_getD tr steps nb i h, if_pos hi,
    if_pos (by omega : i * binSize steps nb < i * binSize steps nb + binSize steps nb)]
  rw [← hsm]
  unfold npMean
  rw [if_neg (by simp [List.isEmpty_iff, hne])]

lemma binRewards_final (tr : List ℚ) (steps nb : ℕ) (hb : 1 ≤ nb)
    (hne : pySlice tr ((nb - 1) * binSize steps nb) tr.length ≠ []) :
    (binRewards tr steps nb).getD (nb - 1) none =
      some ((pySlice tr ((nb - 1) * binSize steps nb) tr.length).sum /
        ((pySlice tr ((nb - 1) * binSize steps nb) tr.length).length : ℚ)) := by
  have h : nb - 1 < nb := by omega
  have hstart : (nb - 1) * binSize steps nb < tr.length := by
    by_contra hc
    push_neg at hc
    apply hne
    unfold pySlice
    rw [List.drop_eq_nil_iff.2 hc]
    simp
  rw [binRewards_getD tr steps nb (nb - 1) h, if_neg (by omega : ¬(nb - 1 < nb - 1)),
    if_pos hstart]
  unfold npMean
  rw [if_neg (by simp [List.isEmpty_iff, hne])]

/-- C3: for `steps ≥ 1` and `num_bins ≥ 1`, `fit` returns an averaged-reward
sequence of length exactly `num_bins`; with `bin_size = ceil(steps/num_bins)`,
every non-final bin `i` covering at least one raw-reward trace entry equals
the arithmetic mean of trace entries `[i*bin_size, (i+1)*bin_size)`, and the
final bin the mean of the entries from `(num_bins-1)*bin_size` to the end of
the trace, whose length is `steps`. -/
theorem fit_bins_spec {σ : Type} (p : QLearning) (E : Env σ) (env0 : σ)
    (rnd0 : Rand) (steps nb : ℕ) (hs : 1 ≤ steps) (hb : 1 ≤ nb) :
    (fitState p E env0 rnd0 steps).rewards.length = steps ∧
    ((binSize steps nb : ℤ) = ⌈(steps : ℚ) / (nb : ℚ)⌉) ∧
    p.fit E env0 rnd0 steps nb =
      Except.ok ((fitState p E env0 rnd0 steps).Q,
        binRewards (fitState p E env0 rnd0 steps).rewards steps nb) ∧
    (binRewards (fitState p E env0 rnd0 steps).rewards steps nb).length = nb ∧
    (∀ i, i < nb - 1 →
      pySlice (fitState p E env0 rnd0 steps).rewards (i * binSize steps nb)
        ((i + 1) * binSize steps nb) ≠ [] →
      (binRewards (fitState p E env0 rnd0 steps).rewards steps nb).getD i none =
        some ((pySlice (fitState p E env0 rnd0 steps).rewards (i * binSize steps nb)
            ((i + 1) * binSize steps nb)).sum /
          ((pySlice (fitState p E env0 rnd0 steps).rewards (i * binSize steps nb)
            ((i + 1) * binSize steps nb)).length : ℚ))) ∧
    (pySlice (fitState p E env0 rnd0 steps).rewards ((nb - 1) * binSize steps nb)
        (fitState p E env0 rnd0 steps).rewards.length ≠ [] →
      (binRewards (fitState p E env0 rnd0 steps).rewards steps nb).getD (nb - 1) none =
        some ((pySlice (fitState p E env0 rnd0 steps).rewards
            ((nb - 1) * binSize steps nb)
            (fitState p E env0 rnd0 steps).rewards.length).sum /
          ((pySlice (fitState p E env0 rnd0 steps).rewards
            ((nb - 1) * binSize steps nb)
            (fitState p E env0 rnd0 steps).rewards.length).length : ℚ))) :=
  ⟨fitState_rewards_length p E env0 rnd0 steps,
   binSize_eq_ceil steps nb (by omega),
   fit_ok p E env0 rnd0 steps nb (by omega),
   binRewards_length _ _ _,
   fun i hi hne => binRewards_nonfinal _ _ _ _ hi hne,
   fun hne => binRewards_final _ _ _ hb hne⟩

/-- Witness for C3 at `steps = 10`, `num_bins = 3`: the trace has length 10,
the binned output has length 3, and `bin_size = ceil(10/3) = 4`. -/
theorem fit_bins_spec_witness :
    ((1 : ℕ) ≤ 10 ∧ (1 : ℕ) ≤ 3) ∧
    (fitState pOne (envConst 1) () zRnd 10).rewards.length = 10 ∧
    (binRewards (fitState pOne (envConst 1) () zRnd 10).rewards 10 3).length = 3 ∧
    ((binSize 10 3 : ℤ) = ⌈((10 : ℕ) : ℚ) / ((3 : ℕ) : ℚ)⌉) ∧
    binSize 10 3 = 4 := by
  have h := fit_bins_spec pOne (envConst 1) () zRnd 10 3 (by decide) (by decide)
  exact ⟨⟨by decide, by decide⟩, h.1, h.2.2.2.1, h.2.1, by decide⟩

/-- Counterexample to C4: at `steps = 1`, `num_bins = 3` (both within the
claim's range), bin `1` covers zero raw-reward trace entries, yet `fit`'s
binned output reports NaN (`np.mean` of an empty slice, modelled `none`)
for it, not `0`. -/
theorem fit_bins_nan_cex :
    (pOne.fit (envConst 5) () zRnd 1 3).toOption.map (fun pr => pr.2.getD 1 (some 0)) =
      some none ∧
    pySlice (fitState pOne (envConst 5) () zRnd 1).rewards
      (1 * binSize 1 3) ((1 + 1) * binSize 1 3) = [] := by
  constructor
  · decide
  · decide

/-- C4 (amended): the final bin reports `0` when it covers zero raw-reward
trace entries; a non-final bin covering zero entries (possible when
`num_bins` exceeds the number of steps) reports NaN, the `np.mean` of an
empty slice. -/
theorem fit_bins_empty {σ : Type} (p : QLearning) (E : Env σ) (env0 : σ)
    (rnd0 : Rand) (steps nb : ℕ) (hb : 1 ≤ nb) :
    ((fitState p E env0 rnd0 steps).rewards.length ≤ (nb - 1) * binSize steps nb →
      (binRewards (fitState p E env0 rnd0 steps).rewards steps nb).getD (nb - 1) none =
        some 0) ∧
    (∀ i, i < nb - 1 →
      (fitState p E env0 rnd0 steps).rewards.length ≤ i * binSize steps nb →
      0 < binSize steps nb →
      (binRewards (fitState p E env0 rnd0 steps).rewards steps nb).getD i none = none) ∧
    p.fit E env0 rnd0 steps nb =
      Except.ok ((fitState p E env0 rnd0 steps).Q,
        binRewards (fitState p E env0 rnd0 steps).rewards steps nb) := by
  refine ⟨?_, ?_, fit_ok p E env0 rnd0 steps nb (by omega)⟩
  · intro hle
    rw [binRewards_getD _ steps nb (nb - 1) (by omega),
      if_neg (by omega : ¬(nb - 1 < nb - 1)), if_neg (by omega)]
  · intro i hi hle hbs
    rw [binRewards_getD _ steps nb i (Nat.lt_of_lt_of_le hi (Nat.sub_le nb 1)),
      if_pos hi, if_pos (by omega)]
    unfold pySlice
    rw [List.drop_eq_nil_iff.2 hle]
    simp [npMean]

/-- Witness for C4 (amended) at `steps = 1`, `num_bins = 3`: the final bin
covers zero entries and reports `0`; the non-final bin `1` covers zero
entries and reports NaN. -/
theorem fit_bins_empty_witness :
    (fitState pOne (envConst 5) () zRnd 1).rewards.length ≤ (3 - 1) * binSize 1 3 ∧
    (binRewards (fitState pOne (envConst 5) () zRnd 1).rewards 1 3).getD (3 - 1) none =
      some 0 ∧
    (binRewards (fitState pOne (envConst 5) () zRnd 1).rewards 1 3).getD 1 none = none := by
  have h := fit_bins_empty pOne (envConst 5) () zRnd 1 3 (by decide)
  exact ⟨by decide, h.1 (by decide), h.2.1 1 (by decide) (by decide) (by decide)⟩

/-- Counterexample to C5: with `steps = 0 ≤ 0`, `fit` performs an environment
interaction — `env.reset()` is called, incrementing the interaction counter
to `1` — and completes normally with no error signalled at all. -/
theorem fit_no_validation_cex :
    (fitState pOne envCount 0 zRnd 0).env = 1 ∧
    (pOne.fit envCount 0 zRnd 0 1).toOption.map (fun pr => pr.2) =
      some [some 0] := by
  constructor
  · decide
  · decide

/-- C5 (amended): `fit` validates nothing: `env.reset()` is called
unconditionally before the training loop, whatever `steps` and `num_bins`
are; `steps = 0` just runs zero training iterations, and `num_bins = 0`
raises `ZeroDivisionError` at the binning stage, after all environment
interaction; no `InvalidConfiguration` error exists. -/
theorem fit_no_validation {σ : Type} (p : QLearning) (E : Env σ) (env0 : σ)
    (rnd0 : Rand) (steps nb : ℕ) :
    (fitState p E env0 rnd0 0).env = (E.reset env0).2 ∧
    (fitState p E env0 rnd0 0).cur = (E.reset env0).1 ∧
    (nb = 0 → p.fit E env0 rnd0 steps nb = Except.error "ZeroDivisionError") ∧
    (nb ≠ 0 → p.fit E env0 rnd0 steps nb =
      Except.ok ((fitState p E env0 rnd0 steps).Q,
        binRewards (fitState p E env0 rnd0 steps).rewards steps nb)) := by
  refine ⟨rfl, rfl, ?_, fit_ok p E env0 rnd0 steps nb⟩
  intro h
  unfold QLearning.fit
  rw [if_pos h]

/-- Witness for C5 (amended): concretely, `num_bins = 0` yields the
division-by-zero failure while the reset has already happened. -/
theorem fit_no_validation_witness :
    pOne.fit envCount 0 zRnd 5 0 = Except.error "ZeroDivisionError" ∧
    (fitState pOne envCount 0 zRnd 0).env = (envCount.reset 0).2 := by
  have h := fit_no_validation pOne envCount 0 zRnd 5 0
  exact ⟨h.2.2.1 rfl, h.1⟩

end RL
